import Mathlib

/-!
# Verification of the Stagehand instruction-grounding pipeline

A shallow embedding, in Lean 4, of the parts of the repository that the
verified claims are about:

* `fillInVariables` and the inference entry points `extract`, `observe`,
  `actInference` (file `lib/inference.ts`, provided unnamed);
* the Google provider `createChatCompletion` structured-response handling and
  `prepareGoogleContent` (file `lib/llm/GoogleClient.ts`, provided unnamed);
* `Stagehand.updateMetrics` / `updateTotalMetrics`, the browserbase
  log-draining cycle, and `Stagehand.agent(...).execute` (file
  `lib/index.ts`).

Conventions used throughout:

* JavaScript strings are `String`, except in `fillInVariables` where text is
  modelled as `List Char` so that replacement can be reasoned about
  structurally.  JSON-like runtime values are modelled by `JVal`.
* LLM calls are a suspending external collaborator; they are modelled by an
  oracle function `LLMOracle` from the issued call (messages plus requested
  output schema) to the provider's parsed response.  The inference functions
  additionally return the ordered list of calls they issued, which is their
  call trace.
* Prompt-building functions live in `lib/prompt.ts`, which is not part of the
  provided sources; each builder is modelled as an opaque constructor of
  `PromptMsg` carrying exactly the arguments the call sites pass it.
* `JSON.parse` is an external runtime facility; it is modelled as a parameter
  `jsonParse : String → Option JVal`, `none` standing for a thrown
  `SyntaxError`.
-/

namespace Stagehand

/-! ## JSON-like runtime values -/

/-- A JavaScript/JSON runtime value, as produced by `JSON.parse` or by a
provider's structured decoding. -/
inductive JVal where
  | null
  | str (s : String)
  | num (n : Int)
  | bool (b : Bool)
  | arr (elems : List JVal)
  | obj (fields : List (String × JVal))
deriving Repr

/-- Property access `v[k]`; `none` models JavaScript `undefined` (property
absent or the receiver is not an object). -/
def getField : JVal → String → Option JVal
  | .obj fields, k => (fields.find? (fun f => f.1 = k)).map (·.2)
  | _, _ => none

/-- `Number(v)` restricted to the cases the verified claims exercise: a JSON
number is returned unchanged, every other input (which JavaScript would send
to `NaN` or to numeric string parsing) is collapsed to `none`. -/
def jsNum : Option JVal → Option Int
  | some (.num n) => some n
  | _ => none

/-- `String(v)` restricted to the cases the verified claims exercise: a JSON
string is returned unchanged, every other input (which JavaScript would
stringify) is collapsed to `none`. -/
def jsStr : Option JVal → Option String
  | some (.str s) => some s
  | _ => none

/-! ## `fillInVariables` (lib/inference.ts lines 24-34)

JavaScript `text.replace(pattern, value)` with a string pattern replaces only
the first occurrence of `pattern`.  Text is modelled as `List Char`;
`$`-substitution patterns inside the replacement value (a JavaScript `replace`
feature the source does not escape) are not modelled, and no verified
statement depends on a value containing `$`. -/

/-- First-occurrence string replacement: JavaScript
`t.replace(p, v)` for string patterns. -/
def replaceFirstL (p v : List Char) : List Char → List Char
  | [] => if p.isPrefixOf ([] : List Char) then v else []
  | c :: rest =>
    if p.isPrefixOf (c :: rest) then v ++ (c :: rest).drop p.length
    else c :: replaceFirstL p v rest

/-- `p` occurs as a contiguous substring of the text. -/
def occursL (p : List Char) : List Char → Bool
  | [] => p.isPrefixOf ([] : List Char)
  | c :: rest => p.isPrefixOf (c :: rest) || occursL p rest

/-- The placeholder `<|KEY|>` built for a variables-map key (key
upper-cased). -/
def placeholderL (key : List Char) : List Char :=
  '<' :: '|' :: (key.map Char.toUpper ++ ['|', '>'])

/-- `fillInVariables` (lib/inference.ts): iterate over the variables map in
entry order, replacing for each entry the first occurrence of its placeholder
in the text processed so far. -/
def fillInVariables (text : List Char) (vars : List (List Char × List Char)) :
    List Char :=
  vars.foldl (fun processedText kv =>
    replaceFirstL (placeholderL kv.1) kv.2 processedText) text

/-! ## Lemmas about first-occurrence replacement -/

theorem replaceFirstL_of_not_occurs (p v : List Char) :
    ∀ t : List Char, occursL p t = false → replaceFirstL p v t = t := by
  intro t
  induction t with
  | nil =>
    intro h
    simp only [occursL] at h
    simp [replaceFirstL, h]
  | cons c rest ih =>
    intro h
    simp only [occursL, Bool.or_eq_false_iff] at h
    simp [replaceFirstL, h.1, ih h.2]

theorem isPrefixOf_append_drop (p t : List Char) (h : p.isPrefixOf t = true) :
    p ++ t.drop p.length = t := by
  rw [List.isPrefixOf_iff_prefix] at h
  obtain ⟨b, rfl⟩ := h
  simp

theorem replaceFirstL_first_occurrence (p v : List Char) :
    ∀ t : List Char, occursL p t = true →
      ∃ a b, t = a ++ p ++ b ∧ replaceFirstL p v t = a ++ v ++ b ∧
        ∀ a' b', t = a' ++ p ++ b' → a.length ≤ a'.length := by
  intro t
  induction t with
  | nil =>
    intro h
    simp only [occursL] at h
    rw [List.isPrefixOf_iff_prefix] at h
    have hnil : p = [] := List.prefix_nil.mp h
    subst hnil
    refine ⟨[], [], by simp, ?_, ?_⟩
    · simp [replaceFirstL, List.isPrefixOf]
    · intro a' b' _; simp
  | cons c rest ih =>
    intro h
    by_cases hp : p.isPrefixOf (c :: rest) = true
    · refine ⟨[], (c :: rest).drop p.length, ?_, ?_, ?_⟩
      · simpa using (isPrefixOf_append_drop p (c :: rest) hp).symm
      · simp [replaceFirstL, hp]
      · intro a' b' _; simp
    · simp only [occursL, hp, Bool.false_or] at h
      obtain ⟨a, b, hsplit, hrepl, hmin⟩ := ih h
      refine ⟨c :: a, b, ?_, ?_, ?_⟩
      · simp [hsplit]
      · simp [replaceFirstL, hp, hrepl]
      · intro a' b' heq
        match a' with
        | [] =>
          exfalso
          apply hp
          rw [List.isPrefixOf_iff_prefix]
          simp only [List.nil_append] at heq
          exact heq ▸ List.prefix_append p b'
        | c' :: a'' =>
          simp only [List.cons_append, List.cons.injEq] at heq
          simpa using Nat.succ_le_succ (hmin a'' b' heq.2)

/-! ## Claim C9 -/

/-- **C9** (counterexample).  The claim states that a key whose placeholder
does not occur in the input text has no effect on the result.  Concrete
refutation: text `"<|A|>"` with variables `{a: "<|B|>", b: "v"}`.  The
placeholder `<|B|>` does not occur in the input text, yet the entry for `b`
changes the result from `"<|B|>"` to `"v"`, because the replacement value
installed for `a` introduced `<|B|>` into the processed text before `b`'s
turn. -/
theorem C9_counterexample_value_introduces_placeholder :
    fillInVariables "<|A|>".data [("a".data, "<|B|>".data), ("b".data, "v".data)] =
      "v".data ∧
    occursL (placeholderL "b".data) "<|A|>".data = false ∧
    fillInVariables "<|A|>".data [("a".data, "<|B|>".data)] = "<|B|>".data ∧
    "v".data ≠ "<|B|>".data := by
  refine ⟨by decide, by decide, by decide, by decide⟩

/-- **C9** (amended).  `fillInVariables` processes the variables map
sequentially in entry order; each entry replaces only the first (leftmost)
occurrence of its placeholder `<|KEY|>` (key upper-cased) in the text *as
already processed by the earlier entries*, leaving every later occurrence
unchanged (they lie in the untouched suffix `b`), and an entry whose
placeholder is absent from the text at its turn leaves the text unchanged. -/
theorem C9_fillInVariables_sequential_first_occurrence :
    (∀ (text k v : List Char) (rest : List (List Char × List Char)),
        fillInVariables text ((k, v) :: rest) =
          fillInVariables (replaceFirstL (placeholderL k) v text) rest) ∧
    (∀ (text k v : List Char), occursL (placeholderL k) text = false →
        replaceFirstL (placeholderL k) v text = text) ∧
    (∀ (text k v : List Char), occursL (placeholderL k) text = true →
        ∃ a b, text = a ++ placeholderL k ++ b ∧
          replaceFirstL (placeholderL k) v text = a ++ v ++ b ∧
          ∀ a' b', text = a' ++ placeholderL k ++ b' → a.length ≤ a'.length) :=
  ⟨fun _ _ _ _ => rfl,
   fun text k v h => replaceFirstL_of_not_occurs (placeholderL k) v text h,
   fun text k v h => replaceFirstL_first_occurrence (placeholderL k) v text h⟩

/-- **C9** (witness).  The amended theorem applied at concrete inputs:
a text without the placeholder `<|Q|>` is unchanged by the entry for `q`, and
in `"x<|K|>y<|K|>z"` the entry for `k` rewrites exactly the first `<|K|>`. -/
theorem C9_fillInVariables_witness :
    (replaceFirstL (placeholderL "q".data) "V".data "abc".data = "abc".data) ∧
    (∃ a b, ("x<|K|>y<|K|>z".data : List Char) = a ++ placeholderL "k".data ++ b ∧
      replaceFirstL (placeholderL "k".data) "V".data "x<|K|>y<|K|>z".data =
        a ++ "V".data ++ b ∧
      ∀ a' b', "x<|K|>y<|K|>z".data = a' ++ placeholderL "k".data ++ b' →
        a.length ≤ a'.length) :=
  ⟨C9_fillInVariables_sequential_first_occurrence.2.1 "abc".data "q".data "V".data
      (by decide),
   C9_fillInVariables_sequential_first_occurrence.2.2 "x<|K|>y<|K|>z".data "k".data
      "V".data (by decide)⟩

/-! ## The model-invocation collaborator

`LLMClient.createChatCompletion` is an external collaborator.  A call is
described by the messages passed in and by the requested `response_model`
(its name and its zod schema); the provider's answer is a parsed payload plus
optional usage counts.  Wall-clock time around each call
(`Date.now()` before/after) is modelled by an `elapsedMs` supplied by the
oracle for that call. -/

/-- The structural part of a zod schema, as assembled by the inference file.
`caller` stands for the caller-supplied extraction schema, which is opaque at
this layer.  The `.describe(...)` annotations of the source do not change the
structure and are not modelled. -/
inductive ZSchema where
  | zstring
  | zboolean
  | znumber
  | zobject (fields : List (String × ZSchema))
  | zarray (elem : ZSchema)
  | caller
deriving Repr

/-- One message handed to the model.  The prompt-builder functions live in
`lib/prompt.ts`, which is outside the provided sources; each builder is an
opaque constructor carrying exactly the arguments its call site passes. -/
inductive PromptMsg where
  | extractSystem (isUsingAnthropic : Bool) (isUsingTextExtract : Option Bool)
      (userProvidedInstructions : Option String)
  | extractUser (instruction : String) (domElements : String) (isUsingAnthropic : Bool)
  | refineSystem
  | refineUser (instruction : String) (previouslyExtractedContent : JVal)
      (newlyExtractedContent : JVal)
  | metadataSystem
  | metadataUser (instruction : String) (extractionResponse : JVal)
      (chunksSeen : Nat) (chunksTotal : Nat)
  | observeSystem (userProvidedInstructions : Option String)
      (isUsingAccessibilityTree : Option Bool)
  | observeUser (instruction : String) (domElements : String)
      (isUsingAccessibilityTree : Option Bool)
  | actSystem (userProvidedInstructions : Option String)
  | actUser (instruction : String) (hybridTree : String)
deriving Repr

/-- Token usage as optionally reported by a provider (`LLMUsage` in
lib/inference.ts). -/
structure LLMUsage where
  prompt_tokens : Nat
  completion_tokens : Nat
  total_tokens : Nat
deriving Repr

/-- One `createChatCompletion` invocation with a `response_model`: the
messages and the requested schema (name and shape).  The sampling parameters
(`temperature: 0.1, top_p: 1, ...`) are identical for every call in the
inference file and are not modelled. -/
structure LLMCall where
  messages : List PromptMsg
  schemaName : String
  schema : ZSchema
deriving Repr

/-- A provider response to one structured call: the parsed payload
(`data`), the optional usage block, and the wall-clock duration of the call
as observed by the `Date.now()` bracketing at the call site. -/
structure LLMStep where
  data : JVal
  usage : Option LLMUsage
  elapsedMs : Nat
deriving Repr

/-- The model collaborator: what the provider answers to each structured
call. -/
def LLMOracle : Type := LLMCall → LLMStep

/-- `usage?.prompt_tokens ?? 0` at the inference call sites. -/
def usagePromptTokens (s : LLMStep) : Nat := (s.usage.map (·.prompt_tokens)).getD 0

/-- `usage?.completion_tokens ?? 0` at the inference call sites. -/
def usageCompletionTokens (s : LLMStep) : Nat :=
  (s.usage.map (·.completion_tokens)).getD 0

/-! ## `extract` (lib/inference.ts lines 51-342) -/

/-- The `metadataSchema` zod object of `extract`:
`{progress: z.string(), completed: z.boolean()}`. -/
def metadataSchema : ZSchema :=
  .zobject [("progress", .zstring), ("completed", .zboolean)]

/-- Arguments of `extract` that feed the model calls.  `requestId`, the
logger and the inference-to-file logging switch do not influence the calls or
the returned value and are not modelled. -/
structure ExtractArgs where
  instruction : String
  previouslyExtractedContent : JVal
  domElements : String
  chunksSeen : Nat
  chunksTotal : Nat
  isUsingAnthropic : Bool
  isUsingTextExtract : Option Bool
  userProvidedInstructions : Option String

/-- Return value of `extract`.  In the source the refined payload's fields
are spread (`...refinedResponseData`) into the result object next to
`metadata` and the usage totals; here the refined payload is kept whole in
`data`.  `metadata_completed`/`metadata_progress` are the destructured
`completed`/`progress` properties of the metadata call's payload (`none`
models JavaScript `undefined` for an absent property). -/
structure ExtractReturn where
  data : JVal
  metadata_completed : Option JVal
  metadata_progress : Option JVal
  prompt_tokens : Nat
  completion_tokens : Nat
  inference_time_ms : Nat
deriving Repr

/-- The first model call of `extract` (`response_model` name
`"Extraction"`, schema = the caller's schema). -/
def extractCallOf (a : ExtractArgs) : LLMCall :=
  { messages := [.extractSystem a.isUsingAnthropic a.isUsingTextExtract
        a.userProvidedInstructions,
      .extractUser a.instruction a.domElements a.isUsingAnthropic],
    schemaName := "Extraction",
    schema := .caller }

/-- The second model call of `extract` (`response_model` name
`"RefinedExtraction"`): the refine prompt receives the instruction, the
previously accumulated content and the payload of the extract call. -/
def refineCallOf (a : ExtractArgs) (extractedData : JVal) : LLMCall :=
  { messages := [.refineSystem,
      .refineUser a.instruction a.previouslyExtractedContent extractedData],
    schemaName := "RefinedExtraction",
    schema := .caller }

/-- The third model call of `extract` (`response_model` name `"Metadata"`,
schema `metadataSchema`): the metadata prompt receives the instruction, the
payload of the refine call and the chunk counters. -/
def metadataCallOf (a : ExtractArgs) (refinedResponseData : JVal) : LLMCall :=
  { messages := [.metadataSystem,
      .metadataUser a.instruction refinedResponseData a.chunksSeen a.chunksTotal],
    schemaName := "Metadata",
    schema := metadataSchema }

/-- `extract`: three structured calls in sequence (extract, refine,
metadata), each later call's prompt built from the earlier payloads, and the
result assembled from the refined payload, the metadata payload and the
summed usage.  Alongside the result the ordered trace of issued calls is
returned. -/
def extract (llm : LLMOracle) (a : ExtractArgs) : ExtractReturn × List LLMCall :=
  let c1 := extractCallOf a
  let s1 := llm c1
  let c2 := refineCallOf a s1.data
  let s2 := llm c2
  let c3 := metadataCallOf a s2.data
  let s3 := llm c3
  ({ data := s2.data
     metadata_completed := getField s3.data "completed"
     metadata_progress := getField s3.data "progress"
     prompt_tokens :=
       usagePromptTokens s1 + usagePromptTokens s2 + usagePromptTokens s3
     completion_tokens :=
       usageCompletionTokens s1 + usageCompletionTokens s2 + usageCompletionTokens s3
     inference_time_ms := s1.elapsedMs + s2.elapsedMs + s3.elapsedMs },
   [c1, c2, c3])

/-! ## `observe` (lib/inference.ts lines 344-498) -/

/-- Arguments of `observe` that feed the model call. -/
structure ObserveArgs where
  instruction : String
  domElements : String
  isUsingAccessibilityTree : Option Bool
  userProvidedInstructions : Option String
  returnAction : Bool

/-- The `observeSchema` zod object: an `elements` array of objects with
`elementId`/`description`, extended with `method`/`arguments` when
`returnAction` is set. -/
def observeSchema (returnAction : Bool) : ZSchema :=
  .zobject [("elements", .zarray (.zobject
    ([("elementId", .znumber), ("description", .zstring)] ++
      (if returnAction then
        [("method", .zstring), ("arguments", .zarray .zstring)]
      else []))))]

/-- One element of `observe`'s `parsedElements` / `actInference`'s
`parsedElement`.  Coerced fields use `jsNum`/`jsStr`; `method`/`arguments`
are `none` when `returnAction` is false (the source object simply lacks those
properties then). -/
structure ParsedElement where
  elementId : Option Int
  description : Option String
  method : Option String
  arguments : Option JVal
deriving Repr

/-- The mapping applied to each entry of the response's `elements` array. -/
def parseObserveElement (returnAction : Bool) (el : JVal) : ParsedElement :=
  { elementId := jsNum (getField el "elementId")
    description := jsStr (getField el "description")
    method := if returnAction then jsStr (getField el "method") else none
    arguments := if returnAction then getField el "arguments" else none }

/-- Return value of `observe`. -/
structure ObserveReturn where
  elements : List ParsedElement
  prompt_tokens : Nat
  completion_tokens : Nat
  inference_time_ms : Nat
deriving Repr

/-- The single model call of `observe` (`response_model` name
`"Observation"`). -/
def observeCallOf (a : ObserveArgs) : LLMCall :=
  { messages := [.observeSystem a.userProvidedInstructions a.isUsingAccessibilityTree,
      .observeUser a.instruction a.domElements a.isUsingAccessibilityTree],
    schemaName := "Observation",
    schema := observeSchema a.returnAction }

/-- `observeData.elements?.map(...) ?? []`, including the runtime
`TypeError`s JavaScript raises on that line: a present non-array, non-null
`elements` has no `.map`, and a `null` entry inside the array throws when its
properties are read inside the map callback.  An absent or `null` `elements`
short-circuits to `[]` via `?.` and `??`. -/
def observeParsedElements (returnAction : Bool) (data : JVal) :
    Except String (List ParsedElement) :=
  match getField data "elements" with
  | none => .ok []
  | some .null => .ok []
  | some (.arr xs) =>
    if xs.any (fun el => match el with | .null => true | _ => false) then
      .error "TypeError: cannot read properties of null"
    else
      .ok (xs.map (parseObserveElement returnAction))
  | some _ => .error "TypeError: observeData.elements.map is not a function"

/-- `observe`: one structured model call, then the pure mapping of the
response's `elements` array; alongside the result the trace of issued calls
is returned. -/
def observe (llm : LLMOracle) (a : ObserveArgs) :
    Except String ObserveReturn × List LLMCall :=
  let c := observeCallOf a
  let s := llm c
  ((observeParsedElements a.returnAction s.data).map fun parsedElements =>
    { elements := parsedElements
      prompt_tokens := usagePromptTokens s
      completion_tokens := usageCompletionTokens s
      inference_time_ms := s.elapsedMs },
   [c])

/-! ## `actInference` (lib/inference.ts lines 500-622) -/

/-- Arguments of `actInference` that feed the model call. -/
structure ActArgs where
  instruction : String
  hybridTree : String
  userProvidedInstructions : Option String

/-- The `actSchema` zod object: a single `element` object with `elementId`
(number), `description` (string), `method` (string) and `arguments` (array of
strings). -/
def actSchema : ZSchema :=
  .zobject [("element", .zobject
    [("elementId", .znumber), ("description", .zstring),
     ("method", .zstring), ("arguments", .zarray .zstring)])]

/-- Return value of `actInference`: exactly one target element. -/
structure ActReturn where
  targetElement : ParsedElement
  prompt_tokens : Nat
  completion_tokens : Nat
  inference_time_ms : Nat
deriving Repr

/-- The single model call of `actInference` (`response_model` name
`"Action"`). -/
def actCallOf (a : ActArgs) : LLMCall :=
  { messages := [.actSystem a.userProvidedInstructions,
      .actUser a.instruction a.hybridTree],
    schemaName := "Action",
    schema := actSchema }

/-- The `parsedElement` assembly of `actInference`: property reads on
`actData.element`.  A missing or `null` `element` raises a runtime
`TypeError` when its properties are read. -/
def actParsedElement (data : JVal) : Except String ParsedElement :=
  match getField data "element" with
  | none => .error "TypeError: cannot read properties of undefined"
  | some .null => .error "TypeError: cannot read properties of null"
  | some el =>
    .ok { elementId := jsNum (getField el "elementId")
          description := jsStr (getField el "description")
          method := jsStr (getField el "method")
          arguments := getField el "arguments" }

/-- `actInference`: one structured model call constrained by `actSchema`,
then the assembly of the single target element; alongside the result the
trace of issued calls is returned. -/
def actInference (llm : LLMOracle) (a : ActArgs) :
    Except String ActReturn × List LLMCall :=
  let c := actCallOf a
  let s := llm c
  ((actParsedElement s.data).map fun parsedElement =>
    { targetElement := parsedElement
      prompt_tokens := usagePromptTokens s
      completion_tokens := usageCompletionTokens s
      inference_time_ms := s.elapsedMs },
   [c])

/-! ## Claims C2 and C7 -/

/-- **C2** (confirmed).  One invocation of `extract` issues exactly three
structured model calls, in the order extract (`"Extraction"`), refine
(`"RefinedExtraction"`), metadata (`"Metadata"`), and the returned
`prompt_tokens`, `completion_tokens` and `inference_time_ms` are the sums of
the corresponding usage of those three calls. -/
theorem C2_extract_three_calls_summed_usage (llm : LLMOracle) (a : ExtractArgs) :
    let s1 := llm (extractCallOf a)
    let c2 := refineCallOf a s1.data
    let s2 := llm c2
    let c3 := metadataCallOf a s2.data
    let s3 := llm c3
    (extract llm a).2 = [extractCallOf a, c2, c3] ∧
    (extract llm a).2.map (·.schemaName) =
      ["Extraction", "RefinedExtraction", "Metadata"] ∧
    (extract llm a).1.prompt_tokens =
      usagePromptTokens s1 + usagePromptTokens s2 + usagePromptTokens s3 ∧
    (extract llm a).1.completion_tokens =
      usageCompletionTokens s1 + usageCompletionTokens s2 + usageCompletionTokens s3 ∧
    (extract llm a).1.inference_time_ms =
      s1.elapsedMs + s2.elapsedMs + s3.elapsedMs :=
  ⟨rfl, rfl, rfl, rfl, rfl⟩

/-- **C7** (confirmed).  The metadata call of `extract` is built from the
original instruction and the refined payload (not the raw per-chunk
extraction payload), its schema is exactly
`{progress: string, completed: boolean}`, and the returned value carries the
refined payload's fields together with a `metadata` field holding exactly the
`completed` and `progress` properties of the metadata call's payload. -/
theorem C7_extract_metadata_call_and_return (llm : LLMOracle) (a : ExtractArgs) :
    let s1 := llm (extractCallOf a)
    let s2 := llm (refineCallOf a s1.data)
    let c3 := metadataCallOf a s2.data
    let s3 := llm c3
    c3.messages =
      [.metadataSystem,
       .metadataUser a.instruction s2.data a.chunksSeen a.chunksTotal] ∧
    c3.schema = metadataSchema ∧
    metadataSchema = .zobject [("progress", .zstring), ("completed", .zboolean)] ∧
    (extract llm a).2.getLast? = some c3 ∧
    (extract llm a).1.data = s2.data ∧
    (extract llm a).1.metadata_completed = getField s3.data "completed" ∧
    (extract llm a).1.metadata_progress = getField s3.data "progress" :=
  ⟨rfl, rfl, rfl, rfl, rfl, rfl, rfl⟩

/-! ## Claim C5 -/

/-- **C5** (confirmed).  One invocation of `observe` issues exactly one
structured model call (the trace is the one-element list, on every outcome),
and when the response payload's `elements` property is absent or is the empty
array the function returns `elements = []` as a normal successful result
rather than an exception. -/
theorem C5_observe_single_call_empty_is_ok (llm : LLMOracle) (a : ObserveArgs) :
    (observe llm a).2 = [observeCallOf a] ∧
    (getField (llm (observeCallOf a)).data "elements" = none ∨
        getField (llm (observeCallOf a)).data "elements" = some (.arr []) →
      (observe llm a).1 = .ok
        { elements := []
          prompt_tokens := usagePromptTokens (llm (observeCallOf a))
          completion_tokens := usageCompletionTokens (llm (observeCallOf a))
          inference_time_ms := (llm (observeCallOf a)).elapsedMs }) := by
  refine ⟨rfl, fun h => ?_⟩
  rcases h with h | h <;>
    simp [observe, observeParsedElements, h, Except.map]

/-- A provider response for the `observe` witness: a payload whose
`elements` array is empty. -/
def observeOracleEmpty : LLMOracle := fun _ =>
  { data := .obj [("elements", .arr [])]
    usage := some { prompt_tokens := 3, completion_tokens := 2, total_tokens := 5 }
    elapsedMs := 7 }

/-- Concrete arguments for the `observe` witness. -/
def observeArgsEx : ObserveArgs :=
  { instruction := "find the search box"
    domElements := "<tree>"
    isUsingAccessibilityTree := some true
    userProvidedInstructions := none
    returnAction := false }

/-- **C5** (witness).  The theorem applied to a concrete oracle answering an
empty `elements` array: the call returns `elements = []` successfully. -/
theorem C5_observe_witness :
    (observe observeOracleEmpty observeArgsEx).1 = .ok
      { elements := []
        prompt_tokens := 3
        completion_tokens := 2
        inference_time_ms := 7 } :=
  (C5_observe_single_call_empty_is_ok observeOracleEmpty observeArgsEx).2
    (Or.inr (by simp [observeOracleEmpty, getField]))

/-! ## Claim C6 -/

/-- **C6** (confirmed).  One invocation of `actInference` issues exactly one
structured model call whose schema is `actSchema` — a single `element` object
with one `elementId`, one `description`, one `method` and one ordered array
of string `arguments` — and whenever the response payload carries such an
element, the returned `targetElement` is exactly that single element (a
single record, never a list of candidates). -/
theorem C6_actInference_single_call_single_element (llm : LLMOracle) (a : ActArgs) :
    ((actInference llm a).2 = [actCallOf a] ∧
     (actCallOf a).schema = actSchema ∧
     actSchema = .zobject [("element", .zobject
        [("elementId", .znumber), ("description", .zstring),
         ("method", .zstring), ("arguments", .zarray .zstring)])]) ∧
    (∀ (el : JVal) (i : Int) (d m : String) (args : List JVal),
      getField (llm (actCallOf a)).data "element" = some el →
      getField el "elementId" = some (.num i) →
      getField el "description" = some (.str d) →
      getField el "method" = some (.str m) →
      getField el "arguments" = some (.arr args) →
      (actInference llm a).1 = .ok
        { targetElement :=
            { elementId := some i, description := some d,
              method := some m, arguments := some (.arr args) }
          prompt_tokens := usagePromptTokens (llm (actCallOf a))
          completion_tokens := usageCompletionTokens (llm (actCallOf a))
          inference_time_ms := (llm (actCallOf a)).elapsedMs }) := by
  refine ⟨⟨rfl, rfl, rfl⟩, fun el i d m args h1 h2 h3 h4 h5 => ?_⟩
  cases el with
  | obj fields =>
    simp [actInference, actParsedElement, h1, h2, h3, h4, h5, jsNum, jsStr,
      Except.map]
  | null => simp [getField] at h2
  | str s => simp [getField] at h2
  | num n => simp [getField] at h2
  | bool b => simp [getField] at h2
  | arr xs => simp [getField] at h2

/-- A provider response for the `actInference` witness: a single element
`{elementId: 7, description: "Accept cookies button", method: "click",
arguments: []}`. -/
def actOracleEx : LLMOracle := fun _ =>
  { data := .obj [("element", .obj
      [("elementId", .num 7), ("description", .str "Accept cookies button"),
       ("method", .str "click"), ("arguments", .arr [])])]
    usage := some { prompt_tokens := 10, completion_tokens := 4, total_tokens := 14 }
    elapsedMs := 12 }

/-- Concrete arguments for the `actInference` witness. -/
def actArgsEx : ActArgs :=
  { instruction := "click the Accept cookies button"
    hybridTree := "<tree>"
    userProvidedInstructions := none }

/-- **C6** (witness).  The theorem applied to a concrete oracle: the returned
`targetElement` is exactly the element of the response payload. -/
theorem C6_actInference_witness :
    (actInference actOracleEx actArgsEx).1 = .ok
      { targetElement :=
          { elementId := some 7, description := some "Accept cookies button",
            method := some "click", arguments := some (.arr []) }
        prompt_tokens := 10
        completion_tokens := 4
        inference_time_ms := 12 } :=
  (C6_actInference_single_call_single_element actOracleEx actArgsEx).2
    (.obj [("elementId", .num 7), ("description", .str "Accept cookies button"),
      ("method", .str "click"), ("arguments", .arr [])])
    7 "Accept cookies button" "click" []
    (by simp [actOracleEx, getField]) (by simp [getField]) (by simp [getField])
    (by simp [getField]) (by simp [getField])

/-! ## `GoogleClient.createChatCompletion` — structured-response handling
(lib/llm/GoogleClient.ts lines 889-986)

The model below covers the processing of a `generateContent` response when a
`response_model` was requested: the no-content check, the concatenation of
the candidate's text parts, the usage mapping, and the
`JSON.parse`-or-fallback branch.  A transport error thrown by
`generateContent` itself is re-thrown as a `StagehandError` by the
surrounding `catch` and is outside this model. -/

/-- One part of a response candidate's content; `text` is `none` when the
part carries no `text` property. -/
structure GooglePart where
  text : Option String
deriving Repr

/-- The first response candidate: its content parts and finish reason. -/
structure GoogleCandidate where
  parts : List GooglePart
  finishReason : Option String
deriving Repr

/-- `response.usageMetadata`, each count individually optional. -/
structure GoogleUsageMetadata where
  promptTokenCount : Option Nat
  candidatesTokenCount : Option Nat
  totalTokenCount : Option Nat
deriving Repr

/-- The `generateContent` response as consumed by the client. -/
structure GoogleResponse where
  candidates : List GoogleCandidate
  usageMetadata : Option GoogleUsageMetadata
deriving Repr

/-- The text-extraction loop: concatenate, in order, every part's `text`
property that is present and truthy (the empty string is falsy in
JavaScript, and skipping it does not change the concatenation). -/
def googleResponseText (c : GoogleCandidate) : String :=
  c.parts.foldl (fun responseText p =>
    match p.text with
    | some t => if t ≠ "" then responseText ++ t else responseText
    | none => responseText) ""

/-- `usageData`: each count defaulted to `0` via `|| 0` when the metadata or
the individual count is absent. -/
def googleUsageData (r : GoogleResponse) : LLMUsage :=
  { prompt_tokens := (r.usageMetadata.bind (·.promptTokenCount)).getD 0
    completion_tokens := (r.usageMetadata.bind (·.candidatesTokenCount)).getD 0
    total_tokens := (r.usageMetadata.bind (·.totalTokenCount)).getD 0 }

/-- The structured result `{data, usage}` returned when a `response_model`
was requested. -/
structure GoogleStructuredResult where
  data : JVal
  usage : LLMUsage
deriving Repr

/-- `GoogleClient.createChatCompletion`, structured path (a `response_model`
was requested), after the `generateContent` round trip.  `jsonParse` models
the runtime's `JSON.parse`, with `none` for a thrown `SyntaxError`.
Source behaviour: when `candidate?.content?.parts?.[0]` is missing a
`StagehandError` is thrown; otherwise, if the response text parses as JSON
the parsed value is returned as `data` (no validation against the requested
schema), and if parsing fails a *successful* result is returned whose `data`
is the fabricated object `{completed: responseText, progress: 1.0}`. -/
def googleStructuredCompletion (jsonParse : String → Option JVal)
    (r : GoogleResponse) : Except String GoogleStructuredResult :=
  match r.candidates.head? with
  | none => .error "StagehandError: Google API call failed or returned no content"
  | some candidate =>
    if candidate.parts.isEmpty then
      .error "StagehandError: Google API call failed or returned no content"
    else
      let responseText := googleResponseText candidate
      let usageData := googleUsageData r
      match jsonParse responseText with
      | some parsedData => .ok { data := parsedData, usage := usageData }
      | none => .ok
          { data := .obj [("completed", .str responseText), ("progress", .num 1)]
            usage := usageData }

/-! ## Claim C1 -/

/-- A concrete `generateContent` response whose text,
`"I could not produce JSON."`, is not valid JSON. -/
def googleRespNotJson : GoogleResponse :=
  { candidates := [{ parts := [{ text := some "I could not produce JSON." }]
                     finishReason := some "STOP" }]
    usageMetadata := some { promptTokenCount := some 11
                            candidatesTokenCount := some 7
                            totalTokenCount := some 18 } }

/-- `JSON.parse` on the single response text of `googleRespNotJson`: the text
`"I could not produce JSON."` is not valid JSON, so the parse throws, which
this oracle renders as `none`. -/
def jsonParseRejecting : String → Option JVal := fun _ => none

/-- **C1** (counterexample).  The claim states that a structured Google call
whose response text cannot be parsed as schema-conformant JSON surfaces a
`SchemaValidationError` and never returns a successful result with a
fabricated payload.  Concrete refutation: on an unparseable response text the
call returns `.ok` with the fabricated payload
`{completed: "I could not produce JSON.", progress: 1.0}` — no error of any
kind is raised on this path. -/
theorem C1_counterexample_fallback_is_success :
    googleStructuredCompletion jsonParseRejecting googleRespNotJson = .ok
      { data := .obj [("completed", .str "I could not produce JSON."),
                      ("progress", .num 1)]
        usage := { prompt_tokens := 11, completion_tokens := 7, total_tokens := 18 } } :=
  rfl

/-- **C1** (amended).  For every structured Google call: when the response
has a first candidate with at least one content part and the response text
does not parse as JSON, `createChatCompletion` returns a *successful* result
whose payload is the fabricated object
`{completed: responseText, progress: 1.0}` together with the mapped usage;
no `SchemaValidationError` is raised on this path (a `StagehandError` is
thrown only when the response carries no content part at all). -/
theorem C1_google_parse_failure_returns_fallback
    (jsonParse : String → Option JVal) (r : GoogleResponse)
    (candidate : GoogleCandidate)
    (hc : r.candidates.head? = some candidate)
    (hp : candidate.parts ≠ [])
    (hjson : jsonParse (googleResponseText candidate) = none) :
    googleStructuredCompletion jsonParse r = .ok
      { data := .obj [("completed", .str (googleResponseText candidate)),
                      ("progress", .num 1)]
        usage := googleUsageData r } := by
  simp [googleStructuredCompletion, hc, hp, hjson]

/-- **C1** (witness).  The amended theorem applied to a concrete response and
parse oracle. -/
theorem C1_google_parse_failure_witness :
    googleStructuredCompletion jsonParseRejecting
      { candidates := [{ parts := [{ text := some "sorry, no JSON here" }]
                         finishReason := some "STOP" }]
        usageMetadata := none } = .ok
      { data := .obj [("completed", .str "sorry, no JSON here"), ("progress", .num 1)]
        usage := { prompt_tokens := 0, completion_tokens := 0, total_tokens := 0 } } :=
  C1_google_parse_failure_returns_fallback jsonParseRejecting _
    { parts := [{ text := some "sorry, no JSON here" }], finishReason := some "STOP" }
    rfl (by simp) rfl

/-! ## Metrics (lib/index.ts lines 367-422) -/

/-- `StagehandMetrics`: three counters per operation kind plus three total
counters.  JavaScript numbers holding token counts and durations are
modelled as `Int` so that "non-negative delta" is expressible. -/
structure StagehandMetrics where
  actPromptTokens : Int
  actCompletionTokens : Int
  actInferenceTimeMs : Int
  extractPromptTokens : Int
  extractCompletionTokens : Int
  extractInferenceTimeMs : Int
  observePromptTokens : Int
  observeCompletionTokens : Int
  observeInferenceTimeMs : Int
  totalPromptTokens : Int
  totalCompletionTokens : Int
  totalInferenceTimeMs : Int
deriving Repr, DecidableEq

/-- The operation kinds of the `switch` in `updateMetrics`
(`StagehandFunctionName` in types/stagehand, as consumed by lib/index.ts). -/
inductive StagehandFunctionName where
  | ACT
  | EXTRACT
  | OBSERVE
deriving Repr, DecidableEq

/-- `Stagehand.updateTotalMetrics`: add the deltas to the three total
counters. -/
def updateTotalMetrics (m : StagehandMetrics)
    (promptTokens completionTokens inferenceTimeMs : Int) : StagehandMetrics :=
  { m with
    totalPromptTokens := m.totalPromptTokens + promptTokens
    totalCompletionTokens := m.totalCompletionTokens + completionTokens
    totalInferenceTimeMs := m.totalInferenceTimeMs + inferenceTimeMs }

/-- `Stagehand.updateMetrics`: add the deltas to the three counters of the
given operation kind, then to the totals via `updateTotalMetrics`. -/
def updateMetrics (m : StagehandMetrics) (functionName : StagehandFunctionName)
    (promptTokens completionTokens inferenceTimeMs : Int) : StagehandMetrics :=
  let m1 :=
    match functionName with
    | .ACT =>
      { m with
        actPromptTokens := m.actPromptTokens + promptTokens
        actCompletionTokens := m.actCompletionTokens + completionTokens
        actInferenceTimeMs := m.actInferenceTimeMs + inferenceTimeMs }
    | .EXTRACT =>
      { m with
        extractPromptTokens := m.extractPromptTokens + promptTokens
        extractCompletionTokens := m.extractCompletionTokens + completionTokens
        extractInferenceTimeMs := m.extractInferenceTimeMs + inferenceTimeMs }
    | .OBSERVE =>
      { m with
        observePromptTokens := m.observePromptTokens + promptTokens
        observeCompletionTokens := m.observeCompletionTokens + completionTokens
        observeInferenceTimeMs := m.observeInferenceTimeMs + inferenceTimeMs }
  updateTotalMetrics m1 promptTokens completionTokens inferenceTimeMs

/-- The prompt-token counter of an operation kind. -/
def kindPromptTokens : StagehandFunctionName → StagehandMetrics → Int
  | .ACT, m => m.actPromptTokens
  | .EXTRACT, m => m.extractPromptTokens
  | .OBSERVE, m => m.observePromptTokens

/-- The completion-token counter of an operation kind. -/
def kindCompletionTokens : StagehandFunctionName → StagehandMetrics → Int
  | .ACT, m => m.actCompletionTokens
  | .EXTRACT, m => m.extractCompletionTokens
  | .OBSERVE, m => m.observeCompletionTokens

/-- The inference-time counter of an operation kind. -/
def kindInferenceTimeMs : StagehandFunctionName → StagehandMetrics → Int
  | .ACT, m => m.actInferenceTimeMs
  | .EXTRACT, m => m.extractInferenceTimeMs
  | .OBSERVE, m => m.observeInferenceTimeMs

/-- Pointwise order on all twelve counters. -/
def MetricsLE (a b : StagehandMetrics) : Prop :=
  a.actPromptTokens ≤ b.actPromptTokens ∧
  a.actCompletionTokens ≤ b.actCompletionTokens ∧
  a.actInferenceTimeMs ≤ b.actInferenceTimeMs ∧
  a.extractPromptTokens ≤ b.extractPromptTokens ∧
  a.extractCompletionTokens ≤ b.extractCompletionTokens ∧
  a.extractInferenceTimeMs ≤ b.extractInferenceTimeMs ∧
  a.observePromptTokens ≤ b.observePromptTokens ∧
  a.observeCompletionTokens ≤ b.observeCompletionTokens ∧
  a.observeInferenceTimeMs ≤ b.observeInferenceTimeMs ∧
  a.totalPromptTokens ≤ b.totalPromptTokens ∧
  a.totalCompletionTokens ≤ b.totalCompletionTokens ∧
  a.totalInferenceTimeMs ≤ b.totalInferenceTimeMs

/-! ## Claim C3 -/

/-- **C3** (confirmed).  `updateMetrics` with an operation kind in
{act, extract, observe} and non-negative deltas increases the three counters
of that kind and the three total counters by exactly the given deltas, leaves
the counters of the other two kinds unchanged, and (the deltas being
non-negative) no counter decreases or resets on any path. -/
theorem C3_updateMetrics_additive (m : StagehandMetrics)
    (functionName : StagehandFunctionName)
    (promptTokens completionTokens inferenceTimeMs : Int)
    (hp : 0 ≤ promptTokens) (hc : 0 ≤ completionTokens)
    (ht : 0 ≤ inferenceTimeMs) :
    let m' := updateMetrics m functionName promptTokens completionTokens
      inferenceTimeMs
    kindPromptTokens functionName m' =
      kindPromptTokens functionName m + promptTokens ∧
    kindCompletionTokens functionName m' =
      kindCompletionTokens functionName m + completionTokens ∧
    kindInferenceTimeMs functionName m' =
      kindInferenceTimeMs functionName m + inferenceTimeMs ∧
    (∀ other, other ≠ functionName →
      kindPromptTokens other m' = kindPromptTokens other m ∧
      kindCompletionTokens other m' = kindCompletionTokens other m ∧
      kindInferenceTimeMs other m' = kindInferenceTimeMs other m) ∧
    m'.totalPromptTokens = m.totalPromptTokens + promptTokens ∧
    m'.totalCompletionTokens = m.totalCompletionTokens + completionTokens ∧
    m'.totalInferenceTimeMs = m.totalInferenceTimeMs + inferenceTimeMs ∧
    MetricsLE m m' := by
  cases functionName <;>
    refine ⟨rfl, rfl, rfl, ?_, rfl, rfl, rfl, ?_⟩ <;>
    first
      | (intro other hother; cases other <;>
          simp_all [kindPromptTokens, kindCompletionTokens, kindInferenceTimeMs,
            updateMetrics, updateTotalMetrics])
      | (refine ⟨?_, ?_, ?_, ?_, ?_, ?_, ?_, ?_, ?_, ?_, ?_, ?_⟩ <;>
          simp [updateMetrics, updateTotalMetrics] <;> omega)

/-- **C3** (witness).  The theorem applied at a concrete state and concrete
deltas: an `EXTRACT` update adds the deltas to the extract and total
counters, leaves the `ACT` counters unchanged, and decreases nothing. -/
theorem C3_updateMetrics_witness :
    let m : StagehandMetrics := ⟨1, 2, 3, 4, 5, 6, 7, 8, 9, 12, 15, 18⟩
    let m' := updateMetrics m .EXTRACT 100 40 250
    kindPromptTokens .EXTRACT m' = kindPromptTokens .EXTRACT m + 100 ∧
    kindPromptTokens .ACT m' = kindPromptTokens .ACT m ∧
    m'.totalPromptTokens = m.totalPromptTokens + 100 ∧
    MetricsLE m m' := by
  have h := C3_updateMetrics_additive ⟨1, 2, 3, 4, 5, 6, 7, 8, 9, 12, 15, 18⟩
    .EXTRACT 100 40 250 (by decide) (by decide) (by decide)
  exact ⟨h.1, (h.2.2.2.1 .ACT (by decide)).1, h.2.2.2.2.1, h.2.2.2.2.2.2.2⟩

/-! ## `Stagehand.agent(...).execute` (lib/index.ts lines 738-774) -/

/-- The options object accepted by `execute`.  Only `instruction` is read by
the dispatch logic; `instruction = none` models a missing property, and the
remaining optional fields (declared in types/agent, outside the provided
sources) are irrelevant to dispatch and not modelled. -/
structure AgentExecuteOptions where
  instruction : Option String
deriving Repr, DecidableEq

/-- The call forwarded to `StagehandAgentHandler.execute` (an external
collaborator): it receives the options object unchanged. -/
inductive AgentHandlerCall where
  | execute (options : AgentExecuteOptions)
deriving Repr, DecidableEq

/-- JavaScript falsiness of `executeOptions.instruction`: `undefined` and the
empty string are falsy. -/
def jsFalsyInstruction : Option String → Bool
  | none => true
  | some s => s = ""

/-- The `execute` closure returned by `Stagehand.agent`: a plain string
argument becomes `{instruction: thatString}`; a falsy instruction raises an
error; otherwise the handler is invoked with the options object. -/
def agentExecute (instructionOrOptions : String ⊕ AgentExecuteOptions) :
    Except String AgentHandlerCall :=
  let executeOptions : AgentExecuteOptions :=
    match instructionOrOptions with
    | .inl s => { instruction := some s }
    | .inr o => o
  if jsFalsyInstruction executeOptions.instruction then
    .error "Instruction is required for agent execution"
  else
    .ok (.execute executeOptions)

/-! ## Claim C8 -/

/-- **C8** (confirmed).  A plain string goal is treated exactly as the
options object `{instruction: that string}`; an options object with an
absent or empty instruction raises an error instead of dispatching; and any
other options object is dispatched to the handler unchanged — so both call
forms reach the same handler with the same options. -/
theorem C8_agent_execute_dispatch :
    (∀ s : String,
      agentExecute (.inl s) = agentExecute (.inr { instruction := some s })) ∧
    (∀ o : AgentExecuteOptions, jsFalsyInstruction o.instruction = true →
      agentExecute (.inr o) = .error "Instruction is required for agent execution") ∧
    (∀ o : AgentExecuteOptions, jsFalsyInstruction o.instruction = false →
      agentExecute (.inr o) = .ok (.execute o)) := by
  refine ⟨fun s => rfl, fun o h => ?_, fun o h => ?_⟩ <;>
    simp [agentExecute, h]

/-- **C8** (witness).  The theorem applied at concrete inputs: the string
form agrees with the options form, a missing and an empty instruction error,
and a non-empty instruction dispatches. -/
theorem C8_agent_execute_witness :
    agentExecute (.inl "book a flight") =
      agentExecute (.inr { instruction := some "book a flight" }) ∧
    agentExecute (.inr { instruction := none }) =
      .error "Instruction is required for agent execution" ∧
    agentExecute (.inr { instruction := some "" }) =
      .error "Instruction is required for agent execution" ∧
    agentExecute (.inr { instruction := some "book a flight" }) =
      .ok (.execute { instruction := some "book a flight" }) :=
  ⟨C8_agent_execute_dispatch.1 "book a flight",
   C8_agent_execute_dispatch.2.1 { instruction := none } (by decide),
   C8_agent_execute_dispatch.2.1 { instruction := some "" } (by decide),
   C8_agent_execute_dispatch.2.2 { instruction := some "book a flight" } (by decide)⟩

/-! ## `prepareGoogleContent` (lib/llm/GoogleClient.ts lines 710-753) -/

/-- One part of a Google `Content` entry, as built by
`mapMessagesToGoogleContent`. -/
inductive ContentPart where
  | text (s : String)
  | inlineData (mimeType : String) (data : String)
  | fileData (mimeType : String) (fileUri : String)
deriving Repr, DecidableEq

/-- A Google `Content` entry: a role tag and its parts. -/
structure Content where
  role : String
  parts : List ContentPart
deriving Repr, DecidableEq

/-- One iteration of the merge loop of `prepareGoogleContent`: push the entry
when `result` is empty or the roles differ, otherwise append its parts to the
last entry of `result`. -/
def appendOrMerge (result : List Content) (content : Content) : List Content :=
  match result.getLast? with
  | none => result ++ [content]
  | some last =>
    if content.role ≠ last.role then result ++ [content]
    else result.dropLast ++ [{ last with parts := last.parts ++ content.parts }]

/-- The `for (const content of contents)` loop of `prepareGoogleContent`. -/
def mergeLoop (result contents : List Content) : List Content :=
  contents.foldl appendOrMerge result

/-- `prepareGoogleContent`: consolidate the optional system instruction into
the leading entry, then run the merge loop over the remaining entries. -/
def prepareGoogleContent (contents : List Content)
    (systemInstruction : Option String) : List Content :=
  match contents with
  | [] =>
    match systemInstruction with
    | some si => [{ role := "user", parts := [.text si] }]
    | none => []
  | first :: rest =>
    match systemInstruction with
    | some si =>
      if first.role = "user" then
        mergeLoop [{ first with parts := .text (si ++ "\n\n") :: first.parts }] rest
      else
        mergeLoop [{ role := "user", parts := [.text si] }] (first :: rest)
    | none => mergeLoop [] (first :: rest)

/-- Modelled from the claim's words (the specification side of C10): merge
every run of consecutive same-role entries into one entry whose parts are the
concatenation, in order, of the merged entries' parts. -/
def specGroupMerge : List Content → List Content
  | [] => []
  | c :: cs =>
    match specGroupMerge cs with
    | [] => [c]
    | d :: ds =>
      if c.role = d.role then { role := c.role, parts := c.parts ++ d.parts } :: ds
      else c :: d :: ds

/-- Modelled from the claim's words (the specification side of C10): prepend
a provided system instruction to the first user message's parts, or emit it
as a leading user entry when the sequence does not start with a user
message.  The concrete texts (`si ++ "\n\n"` in the first case, `si` alone
otherwise) follow the source. -/
def specInjectSystem (contents : List Content) (systemInstruction : Option String) :
    List Content :=
  match systemInstruction with
  | none => contents
  | some si =>
    match contents with
    | [] => [{ role := "user", parts := [.text si] }]
    | first :: rest =>
      if first.role = "user" then
        { first with parts := .text (si ++ "\n\n") :: first.parts } :: rest
      else
        { role := "user", parts := [.text si] } :: first :: rest

/-- The specification side of C10 as a whole: inject the system instruction,
then merge consecutive same-role entries. -/
def specPrepareGoogleContent (contents : List Content)
    (systemInstruction : Option String) : List Content :=
  specGroupMerge (specInjectSystem contents systemInstruction)

/-! ### Lemmas relating the imperative loop to the grouping function -/

theorem appendOrMerge_ne_nil (result : List Content) (content : Content) :
    appendOrMerge result content ≠ [] := by
  unfold appendOrMerge
  cases h : result.getLast? with
  | none => simp
  | some last =>
    by_cases hr : content.role ≠ last.role <;> simp [hr]

theorem appendOrMerge_append (res res₂ : List Content) (content : Content)
    (h : res₂ ≠ []) :
    appendOrMerge (res ++ res₂) content = res ++ appendOrMerge res₂ content := by
  unfold appendOrMerge
  rw [List.getLast?_append_of_ne_nil _ h]
  cases hl : res₂.getLast? with
  | none => simp [List.getLast?_eq_none_iff.mp hl] at h
  | some last =>
    by_cases hr : content.role ≠ last.role
    · simp [hr, List.append_assoc]
    · simp [hr, List.dropLast_append_of_ne_nil _ h, List.append_assoc]

theorem mergeLoop_append (cs : List Content) :
    ∀ res res₂ : List Content, res₂ ≠ [] →
      mergeLoop (res ++ res₂) cs = res ++ mergeLoop res₂ cs := by
  induction cs with
  | nil => intro res res₂ _; rfl
  | cons c cs' ih =>
    intro res res₂ h
    show mergeLoop (appendOrMerge (res ++ res₂) c) cs' =
      res ++ mergeLoop (appendOrMerge res₂ c) cs'
    rw [appendOrMerge_append res res₂ c h]
    exact ih res (appendOrMerge res₂ c) (appendOrMerge_ne_nil res₂ c)

theorem specGroupMerge_cons (c : Content) (cs : List Content) :
    specGroupMerge (c :: cs) =
      match specGroupMerge cs with
      | [] => [c]
      | d :: ds =>
        if c.role = d.role then { role := c.role, parts := c.parts ++ d.parts } :: ds
        else c :: d :: ds := rfl

theorem specGroupMerge_cons_shape (c : Content) (cs : List Content) :
    ∃ extra ds, specGroupMerge (c :: cs) =
      { role := c.role, parts := c.parts ++ extra } :: ds := by
  rw [specGroupMerge_cons]
  cases h : specGroupMerge cs with
  | nil => exact ⟨[], [], by simp⟩
  | cons d ds =>
    by_cases hr : c.role = d.role
    · exact ⟨d.parts, ds, by simp [hr]⟩
    · exact ⟨[], d :: ds, by simp [hr]⟩

theorem specGroupMerge_parts_extend (r : String) (p₁ p₂ : List ContentPart)
    (cs : List Content) :
    specGroupMerge ({ role := r, parts := p₁ ++ p₂ } :: cs) =
      match specGroupMerge ({ role := r, parts := p₂ } :: cs) with
      | [] => []
      | d :: ds => { role := r, parts := p₁ ++ d.parts } :: ds := by
  rw [specGroupMerge_cons, specGroupMerge_cons]
  cases h : specGroupMerge cs with
  | nil => simp
  | cons d ds =>
    by_cases hr : r = d.role
    · simp [hr, List.append_assoc]
    · simp [hr]

theorem mergeLoop_single_eq_specGroupMerge (cs : List Content) :
    ∀ x : Content, mergeLoop [x] cs = specGroupMerge (x :: cs) := by
  induction cs with
  | nil => intro x; rfl
  | cons c cs' ih =>
    intro x
    show mergeLoop (appendOrMerge [x] c) cs' = specGroupMerge (x :: c :: cs')
    obtain ⟨extra, ds, hshape⟩ := specGroupMerge_cons_shape c cs'
    rw [specGroupMerge_cons x (c :: cs'), hshape]
    by_cases hr : c.role = x.role
    · have hx : appendOrMerge [x] c =
          [{ role := x.role, parts := x.parts ++ c.parts }] := by
        unfold appendOrMerge
        simp [hr]
      rw [hx, ih { role := x.role, parts := x.parts ++ c.parts }]
      have h1 : ({ role := x.role, parts := x.parts ++ c.parts } : Content) =
          { role := c.role, parts := x.parts ++ c.parts } := by rw [hr]
      rw [h1, specGroupMerge_parts_extend c.role x.parts c.parts cs']
      have h2 : ({ role := c.role, parts := c.parts } : Content) = c := rfl
      rw [h2, hshape]
      simp [hr.symm, List.append_assoc]
    · have hx : appendOrMerge [x] c = [x] ++ [c] := by
        unfold appendOrMerge
        simp [hr]
      rw [hx, mergeLoop_append cs' [x] [c] (by simp), ih c, hshape]
      have hxr : ¬ (x.role = c.role) := fun h => hr h.symm
      simp [hxr]

theorem specGroupMerge_chain' (l : List Content) :
    List.Chain' (fun a b => a.role ≠ b.role) (specGroupMerge l) := by
  induction l with
  | nil => simp [specGroupMerge]
  | cons c cs ih =>
    rw [specGroupMerge_cons]
    cases h : specGroupMerge cs with
    | nil => simp
    | cons d ds =>
      rw [h] at ih
      by_cases hr : c.role = d.role
      · simp only [if_pos hr]
        cases ds with
        | nil => simp
        | cons e es =>
          rw [List.chain'_cons] at ih ⊢
          exact ⟨hr ▸ ih.1, ih.2⟩
      · simp only [if_neg hr]
        rw [List.chain'_cons]
        exact ⟨hr, ih⟩

/-! ## Claim C10 -/

/-- **C10** (confirmed).  For every input sequence and optional system
instruction, `prepareGoogleContent` equals the claim-side description —
inject the system instruction (prepended to the first user message's parts,
or as a leading user entry otherwise), then merge every run of consecutive
same-role entries into one entry whose parts are concatenated in order — and
its output never contains two adjacent entries with the same role. -/
theorem C10_prepareGoogleContent_merges_adjacent_roles
    (contents : List Content) (systemInstruction : Option String) :
    prepareGoogleContent contents systemInstruction =
      specPrepareGoogleContent contents systemInstruction ∧
    List.Chain' (fun a b => a.role ≠ b.role)
      (prepareGoogleContent contents systemInstruction) := by
  have heq : prepareGoogleContent contents systemInstruction =
      specPrepareGoogleContent contents systemInstruction := by
    unfold prepareGoogleContent specPrepareGoogleContent specInjectSystem
    match contents, systemInstruction with
    | [], some si => rfl
    | [], none => rfl
    | first :: rest, some si =>
      by_cases hu : first.role = "user"
      · simp only [if_pos hu]
        exact mergeLoop_single_eq_specGroupMerge rest _
      · simp only [if_neg hu]
        exact mergeLoop_single_eq_specGroupMerge (first :: rest) _
    | first :: rest, none =>
      show mergeLoop [] (first :: rest) = specGroupMerge (first :: rest)
      show mergeLoop (appendOrMerge [] first) rest = _
      have : appendOrMerge [] first = [first] := rfl
      rw [this]
      exact mergeLoop_single_eq_specGroupMerge rest first
  refine ⟨heq, ?_⟩
  rw [heq]
  exact specGroupMerge_chain' _

/-! ## The browserbase log-draining worker (lib/index.ts lines 627-685)

`log()` pushes the record (with a fresh id) onto
`pending_logs_to_send_to_browserbase` and invokes
`_run_browserbase_log_processing_cycle`, which returns immediately when
`is_processing_browserbase_logs` is set, and otherwise sets the flag,
snapshots the pending list, awaits `_log_to_browserbase` for each snapshot
record in turn and finally clears the flag.  `_log_to_browserbase` removes a
record from the pending list only after the page delivery succeeded; a
record below the verbosity threshold, or whose `page.evaluate` rejects, is
left in the pending list.

This is modelled as a small-step transition system over the JavaScript event
loop: `LogStep.log` is a `log()` call (its synchronous prefix runs to the
first await), `LogStep.process` is the resumption that handles the next
snapshot record of a running cycle, and `LogStep.finish` is the resumption
after the last record that clears the flag.  `deliverable` abstracts
`verbose >= level` together with the success of `page.evaluate`.  The state
keeps a *list* of running cycles so that mutual exclusion is a provable
property rather than a modelling assumption. -/

/-- A pending log record: its fresh id and whether `_log_to_browserbase`
would actually deliver it (`verbose >= level` and `page.evaluate`
succeeds). -/
structure LogRec where
  id : Nat
  deliverable : Bool
deriving Repr, DecidableEq

/-- The shared state of the log worker.  `cycles` holds the remaining
snapshot of every currently running draining cycle. -/
structure LogSt where
  pending : List LogRec
  flag : Bool
  cycles : List (List LogRec)
  delivered : List Nat
deriving Repr, DecidableEq

/-- The state at construction time: nothing pending, no cycle running. -/
def initLogSt : LogSt := { pending := [], flag := false, cycles := [], delivered := [] }

/-- The synchronous prefix of `_run_browserbase_log_processing_cycle`:
return immediately when the flag is set, otherwise set it and snapshot the
pending list as a new running cycle. -/
def runCycleStart (s : LogSt) : LogSt :=
  if s.flag then s
  else { s with flag := true, cycles := s.cycles ++ [s.pending] }

/-- `log()`: append the record to the pending list, then attempt to start a
processing cycle. -/
def enqueueLog (r : LogRec) (s : LogSt) : LogSt :=
  runCycleStart { s with pending := s.pending ++ [r] }

/-- `_log_to_browserbase` on one record: on successful delivery the record
is filtered out of the pending list (by id) and recorded as delivered;
otherwise the state is untouched and the record stays pending. -/
def processRec (r : LogRec) (s : LogSt) : LogSt :=
  if r.deliverable then
    { s with
      pending := s.pending.filter (fun x => x.id != r.id)
      delivered := s.delivered ++ [r.id] }
  else s

/-- One step of the event loop: a `log()` call, the handling of the next
record of a running cycle's snapshot, or the completion of a cycle whose
snapshot is exhausted (which clears the flag). -/
inductive LogStep : LogSt → LogSt → Prop where
  | log (r : LogRec) (s : LogSt) : LogStep s (enqueueLog r s)
  | process (s : LogSt) (pre post : List (List LogRec)) (r : LogRec)
      (rem : List LogRec) (h : s.cycles = pre ++ (r :: rem) :: post) :
      LogStep s { processRec r s with cycles := pre ++ rem :: post }
  | finish (s : LogSt) (pre post : List (List LogRec))
      (h : s.cycles = pre ++ [] :: post) :
      LogStep s { s with cycles := pre ++ post, flag := false }

/-- States reachable from the initial state. -/
inductive LogReach : LogSt → Prop where
  | init : LogReach initLogSt
  | step {s s' : LogSt} : LogReach s → LogStep s s' → LogReach s'

/-- The mutual-exclusion invariant: at most one draining cycle runs, and
none runs while the flag is clear. -/
def LogWF (s : LogSt) : Prop :=
  s.cycles.length ≤ 1 ∧ (s.flag = false → s.cycles = [])

theorem logWF_invariant : ∀ s, LogReach s → LogWF s := by
  intro s h
  induction h with
  | init => exact ⟨by simp [initLogSt], fun _ => rfl⟩
  | @step s₀ s₁ _ hstep ih =>
    cases hstep with
    | log r s₀ =>
      unfold enqueueLog runCycleStart
      by_cases hf : s₀.flag
      · refine ⟨?_, ?_⟩
        · simpa [hf] using ih.1
        · simp [hf]
      · simp only [Bool.not_eq_true] at hf
        refine ⟨?_, ?_⟩
        · simp [hf, ih.2 hf]
        · simp [hf]
    | process s₀ pre post r rem hcyc =>
      constructor
      · have := ih.1
        rw [hcyc] at this
        simpa using this
      · intro hflag
        have hpf : s₀.flag = false := by
          by_cases hd : r.deliverable <;> simpa [processRec, hd] using hflag
        have := ih.2 hpf
        rw [hcyc] at this
        simp at this
    | finish s₀ pre post hcyc =>
      have hlen := ih.1
      rw [hcyc] at hlen
      simp only [List.length_append, List.length_cons] at hlen
      have hpre : pre = [] := by
        cases pre with
        | nil => rfl
        | cons a as => simp at hlen; omega
      have hpost : post = [] := by
        subst hpre
        cases post with
        | nil => rfl
        | cons a as => simp at hlen
      subst hpre; subst hpost
      exact ⟨by simp, fun _ => by simp⟩

theorem logStep_no_drop {s s' : LogSt} (hstep : LogStep s s') :
    ∀ r ∈ s.pending, r ∈ s'.pending ∨ r.id ∈ s'.delivered := by
  intro r hr
  cases hstep with
  | log r₀ s =>
    left
    unfold enqueueLog runCycleStart
    by_cases hf : s.flag <;> simp [hf, hr]
  | process s pre post r₀ rem hcyc =>
    by_cases hd : r₀.deliverable
    · by_cases hid : r.id = r₀.id
      · right; simp [processRec, hd, hid]
      · left
        simp only [processRec, hd, if_pos]
        simp [List.mem_filter, hr, hid]
    · left; simp [processRec, hd, hr]
  | finish s pre post hcyc => left; exact hr

theorem enqueue_mid_drain (r : LogRec) (s : LogSt) (hflag : s.flag = true) :
    (enqueueLog r s).cycles = s.cycles ∧
    (enqueueLog r s).pending = s.pending ++ [r] ∧
    (enqueueLog r s).flag = true := by
  unfold enqueueLog runCycleStart
  simp [hflag]

theorem enqueue_idle_snapshots_pending (r : LogRec) (s : LogSt)
    (hflag : s.flag = false) :
    (enqueueLog r s).cycles = s.cycles ++ [s.pending ++ [r]] ∧
    (enqueueLog r s).flag = true := by
  unfold enqueueLog runCycleStart
  simp [hflag]

theorem quiescent_only_log_steps {s s' : LogSt} (hq : s.cycles = [])
    (hstep : LogStep s s') : ∃ r, s' = enqueueLog r s := by
  cases hstep with
  | log r s => exact ⟨r, rfl⟩
  | process s pre post r rem hcyc => rw [hq] at hcyc; simp at hcyc
  | finish s pre post hcyc => rw [hq] at hcyc; simp at hcyc

/-! ## Claim C4 -/

/-- **C4** (counterexample).  The claim states that every enqueued log
record is delivered by a subsequent draining cycle.  Concrete refutation:
the record `{id := 1, deliverable := false}` (a level-2 log produced while
`verbose = 0`: `_log_to_browserbase` skips the page delivery and does not
remove it from the pending list).  After the complete run — `log()` starts a
cycle, the cycle processes the record without delivering it and finishes —
the system is back to a quiescent state (`flag = false`, no running cycle)
with the record still pending and never delivered; by
`quiescent_only_log_steps`, no further cycle can start without another
`log()` call. -/
theorem C4_counterexample_undelivered_record_stays_pending :
    LogReach { pending := [{ id := 1, deliverable := false }], flag := false,
               cycles := [], delivered := [] } ∧
    ({ id := 1, deliverable := false } : LogRec) ∈
      ({ pending := [{ id := 1, deliverable := false }], flag := false,
         cycles := [], delivered := [] } : LogSt).pending ∧
    (1 : Nat) ∉
      ({ pending := [{ id := 1, deliverable := false }], flag := false,
         cycles := [], delivered := [] } : LogSt).delivered := by
  refine ⟨?_, by simp, by simp⟩
  have h1 : LogReach ⟨[⟨1, false⟩], true, [[⟨1, false⟩]], []⟩ := by
    have := LogReach.step LogReach.init (LogStep.log ⟨1, false⟩ initLogSt)
    simpa [enqueueLog, runCycleStart, initLogSt] using this
  have h2 : LogReach ⟨[⟨1, false⟩], true, [[]], []⟩ := by
    have := LogReach.step h1 (LogStep.process _ [] [] ⟨1, false⟩ [] rfl)
    simpa [processRec] using this
  have h3 := LogReach.step h2 (LogStep.finish _ [] [] rfl)
  simpa using h3

/-- **C4** (amended).  At most one browserbase draining cycle is active at
any time and none is active while the processing flag is clear (invariant
over all reachable states); a `log()` call made mid-drain does not start a
second concurrent drain — its record is appended to the pending queue and
the running cycle's snapshots are untouched; a `log()` call made while no
drain runs starts one cycle whose snapshot contains every pending record
(so a record enqueued mid-drain is picked up by the next cycle, *when a
later `log()` call starts one*); no step removes a record from the pending
queue except by delivering it; and from a quiescent state (no running
cycle) the only possible steps are new `log()` calls — no draining cycle
starts spontaneously, and an undeliverable record therefore stays pending
without ever being delivered. -/
theorem C4_log_drain_coalesced_no_drop :
    (∀ s, LogReach s → LogWF s) ∧
    (∀ (r : LogRec) (s : LogSt), s.flag = true →
      (enqueueLog r s).cycles = s.cycles ∧
      (enqueueLog r s).pending = s.pending ++ [r] ∧
      (enqueueLog r s).flag = true) ∧
    (∀ (r : LogRec) (s : LogSt), s.flag = false →
      (enqueueLog r s).cycles = s.cycles ++ [s.pending ++ [r]] ∧
      (enqueueLog r s).flag = true) ∧
    (∀ (s s' : LogSt), LogStep s s' →
      ∀ r ∈ s.pending, r ∈ s'.pending ∨ r.id ∈ s'.delivered) ∧
    (∀ (s s' : LogSt), s.cycles = [] → LogStep s s' →
      ∃ r, s' = enqueueLog r s) :=
  ⟨logWF_invariant, enqueue_mid_drain, enqueue_idle_snapshots_pending,
   fun _ _ hstep => logStep_no_drop hstep,
   fun _ _ hq hstep => quiescent_only_log_steps hq hstep⟩

/-- **C4** (witness).  The amended theorem applied at concrete states: the
initial state satisfies the invariant; a mid-drain `log()` leaves the
running cycle alone and queues the record; an idle `log()` snapshots the
whole queue; a delivering step keeps or delivers every pending record; and
from the initial (quiescent) state the only steps are `log()` calls. -/
theorem C4_log_drain_witness :
    LogWF initLogSt ∧
    (enqueueLog { id := 2, deliverable := true }
        { pending := [{ id := 1, deliverable := true }], flag := true,
          cycles := [[{ id := 1, deliverable := true }]], delivered := [] }).cycles =
      [[{ id := 1, deliverable := true }]] ∧
    (enqueueLog { id := 3, deliverable := true }
        { pending := [{ id := 2, deliverable := true }], flag := false,
          cycles := [], delivered := [] }).cycles =
      [[{ id := 2, deliverable := true }, { id := 3, deliverable := true }]] ∧
    (({ id := 4, deliverable := true } : LogRec) ∈
        (enqueueLog { id := 5, deliverable := true }
          { pending := [{ id := 4, deliverable := true }], flag := false,
            cycles := [], delivered := [] }).pending ∨
      (4 : Nat) ∈ (enqueueLog { id := 5, deliverable := true }
          { pending := [{ id := 4, deliverable := true }], flag := false,
            cycles := [], delivered := [] }).delivered) ∧
    (∃ r, enqueueLog { id := 5, deliverable := true } initLogSt =
      enqueueLog r initLogSt) :=
  ⟨C4_log_drain_coalesced_no_drop.1 initLogSt LogReach.init,
   (C4_log_drain_coalesced_no_drop.2.1 { id := 2, deliverable := true }
      { pending := [{ id := 1, deliverable := true }], flag := true,
        cycles := [[{ id := 1, deliverable := true }]], delivered := [] } rfl).1,
   by
    have h := (C4_log_drain_coalesced_no_drop.2.2.1 { id := 3, deliverable := true }
      { pending := [{ id := 2, deliverable := true }], flag := false,
        cycles := [], delivered := [] } rfl).1
    simpa using h,
   C4_log_drain_coalesced_no_drop.2.2.2.1
      { pending := [{ id := 4, deliverable := true }], flag := false,
        cycles := [], delivered := [] }
      (enqueueLog { id := 5, deliverable := true }
        { pending := [{ id := 4, deliverable := true }], flag := false,
          cycles := [], delivered := [] })
      (LogStep.log { id := 5, deliverable := true }
        { pending := [{ id := 4, deliverable := true }], flag := false,
          cycles := [], delivered := [] })
      { id := 4, deliverable := true } (by simp),
   C4_log_drain_coalesced_no_drop.2.2.2.2 initLogSt
      (enqueueLog { id := 5, deliverable := true } initLogSt) rfl
      (LogStep.log { id := 5, deliverable := true } initLogSt)⟩

end Stagehand
